import Mathlib

/-!
Verification of the concurrent job supervisor of the gitlab-ci-multi-runner
repository, shallowly embedded in Lean 4.

Each section embeds one part of the Go source:
* `Common` — `common/build.go` (`AssignID`, `ProjectSlug`, `ProjectUniqueDir`,
  `Build.Run` executor protocol);
* `Commands` — `commands/multi.go` (`feedRunner`, `processRunner`,
  `processRunners`, `checkConfig`, `handleShutdown`);
* `Helpers` — `commands/helpers/archive.go` (`isChanged`, `Execute`);
* `Shells` — `shells/abstract.go` (`GenerateCommands`).

Side-effecting Go code is modelled as a pure function from an environment
(the results that the outside world — network, filesystem, executor —
returns at each call site) to the list of observable events the function
performs, in order, plus its return value.  Go `error` values are modelled
as `Option String` (`none` = `nil`) or `Except String`.
-/

/-- Go `error` values modelled by their message; `nil` is `Option.none`. -/
abbrev GoError := String

namespace Common

/-! ### `common/build.go` — data model

`RunnerConfig.ShortDescription()` (a stable short hash of the runner token,
defined outside this package) is modelled as an opaque string field. -/

structure RunnerConfig where
  shortDescription : String
deriving DecidableEq, Repr

/-- The fields of `common.Build` that `AssignID`, `ProjectUniqueName` and
`ProjectUniqueDir` read or write.  Go `int` fields are modelled as `Int`. -/
structure Build where
  runner : RunnerConfig
  projectID : Int
  globalID : Int
  runnerID : Int
  projectRunnerID : Int
deriving DecidableEq, Repr

/-- Any finite list of integers misses some natural number. -/
lemma exists_nat_notMem (used : List Int) : ∃ n : Nat, (n : Int) ∉ used := by
  by_contra h
  push_neg at h
  have hsub : Set.range (fun n : Nat => (n : Int)) ⊆ {x : Int | x ∈ used} := by
    rintro x ⟨n, rfl⟩
    exact h n
  exact Set.infinite_range_of_injective
    (fun a b hab => by exact_mod_cast hab)
    (Set.Finite.subset used.finite_toSet hsub)

/-- The unbounded scan `for i := 0; ; i++ { if !used[i] { break } }` from
`AssignID`: the smallest natural number whose cast is not in `used`. -/
def firstFree (used : List Int) : Nat :=
  Nat.find (exists_nat_notMem used)

lemma firstFree_notMem (used : List Int) : ((firstFree used : Nat) : Int) ∉ used :=
  Nat.find_spec (exists_nat_notMem used)

lemma firstFree_min (used : List Int) {w : Int} (h0 : 0 ≤ w)
    (hw : w < (firstFree used : Int)) : w ∈ used := by
  lift w to Nat using h0
  have hlt : w < firstFree used := by exact_mod_cast hw
  have := Nat.find_min (exists_nat_notMem used) hlt
  simpa using this

/-- `common/build.go` `Build.AssignID`: one pass over `otherBuilds` collects
the used IDs of the three scopes (the `continue` statements restrict the
runner scope to builds with the same `ShortDescription` and the
project-runner scope further to the same `ProjectID`), then three upward
scans pick the first free integer in each scope. -/
def AssignID (b : Build) (otherBuilds : List Build) : Build :=
  let globals := otherBuilds.map (fun o => o.globalID)
  let runners := (otherBuilds.filter
    (fun o => o.runner.shortDescription == b.runner.shortDescription)).map
      (fun o => o.runnerID)
  let projectRunners := (otherBuilds.filter
    (fun o => o.runner.shortDescription == b.runner.shortDescription &&
      o.projectID == b.projectID)).map
      (fun o => o.projectRunnerID)
  { b with
    globalID := (firstFree globals : Int)
    runnerID := (firstFree runners : Int)
    projectRunnerID := (firstFree projectRunners : Int) }

/-- `v` is the smallest non-negative integer outside `used`. -/
def IsLeastFresh (used : Int → Prop) (v : Int) : Prop :=
  0 ≤ v ∧ ¬ used v ∧ ∀ w : Int, 0 ≤ w → w < v → used w

lemma isLeastFresh_firstFree (used : List Int) :
    IsLeastFresh (fun v => v ∈ used) ((firstFree used : Nat) : Int) :=
  ⟨Int.natCast_nonneg _, firstFree_notMem used,
    fun _ h0 hw => firstFree_min used h0 hw⟩

/-! ### `common/build.go` — `Build.Run` executor protocol

`Build.Run` drives one executor through `Prepare → Start → Wait → Finish →
Cleanup`.  The executor's behaviour at each step is an input (`ExecEnv`);
the observable calls `Run` makes are returned as an event list, together
with `Run`'s returned error. -/

/-- The outcome the environment gives to each executor call of `Build.Run`:
whether `NewExecutor` found an executor for the runner's executor kind, and
the errors returned by `Prepare`, `Start` and `Wait` (when reached). -/
structure ExecEnv where
  found : Bool
  prepareErr : Option GoError
  startErr : Option GoError
  waitErr : Option GoError
deriving DecidableEq, Repr

/-- Observable calls made by `Build.Run`. -/
inductive ExecEvent
  | prepare
  | start
  | wait
  | finish (err : Option GoError)
  | cleanup
  | writeLog
  | sendLog
deriving DecidableEq, Repr

/-- `common/build.go` `Build.Run`: if no executor is found, write and send
the build log and return the "executor not found" error.  Otherwise
`err := Prepare(...)`; `if err == nil { err = Start() }`;
`if err == nil { err = Wait() }`; `Finish(err)`; `Cleanup()`; `return err`. -/
def Run (env : ExecEnv) : List ExecEvent × Option GoError :=
  if env.found = false then
    ([ExecEvent.writeLog, ExecEvent.sendLog], some "executor not found")
  else
    let e1 := env.prepareErr
    let e2 := if e1 = none then env.startErr else e1
    let e3 := if e2 = none then env.waitErr else e2
    ([ExecEvent.prepare]
      ++ (if e1 = none then [ExecEvent.start] else [])
      ++ (if e2 = none then [ExecEvent.wait] else [])
      ++ [ExecEvent.finish e3, ExecEvent.cleanup], e3)

/-- The first error produced by `Prepare`/`Start`/`Wait` (`none` if all
succeeded). -/
def firstErr (env : ExecEnv) : Option GoError :=
  match env.prepareErr with
  | some e => some e
  | none =>
    match env.startErr with
    | some e => some e
    | none => env.waitErr

/-! ### `common/build.go` — `ProjectSlug` / `ProjectUniqueDir`

The Go standard-library calls `url.Parse` and `filepath.Clean` are not part
of this repository; they enter the model as oracle inputs: `parseResult` is
what `url.Parse(b.RepoURL)` returned, and `clean` is an arbitrary function
standing for `filepath.Clean`.  The safety theorem therefore holds for
every behaviour of the standard library. -/

/-- The two fields of `net/url.URL` that `ProjectSlug` reads. -/
structure URL where
  host : String
  path : String
deriving DecidableEq, Repr

/-- Go `strings.TrimSuffix`. -/
def trimSuffix (s sfx : String) : String :=
  if s.endsWith sfx then s.dropRight sfx.length else s

/-- Two consecutive `'.'` characters somewhere in the list.  Since `'.'` is
a single UTF-8 byte and never a continuation byte, this coincides with Go's
`strings.Contains(s, "..")` on the byte level. -/
def hasDotDotChars : List Char → Bool
  | [] => false
  | [_] => false
  | c1 :: c2 :: rest => (c1 == '.' && c2 == '.') || hasDotDotChars (c2 :: rest)

/-- Go `strings.Contains(s, "..")`. -/
def hasDotDot (s : String) : Bool :=
  hasDotDotChars s.data

lemma hasDotDotChars_eq_false : ∀ (l : List Char), '.' ∉ l → hasDotDotChars l = false
  | [], _ => rfl
  | [_], _ => rfl
  | c1 :: c2 :: rest, h => by
    have h1 : c1 ≠ '.' := fun hc => h (by simp [hc])
    have h2 : '.' ∉ c2 :: rest := fun hm => h (List.mem_cons_of_mem _ hm)
    have ih := hasDotDotChars_eq_false (c2 :: rest) h2
    have h1' : (c1 == '.') = false := beq_eq_false_iff_ne.mpr h1
    simp [hasDotDotChars, h1', ih]

lemma digitChar_ne_dot (m : Nat) : Nat.digitChar m ≠ '.' := by
  rcases Nat.lt_or_ge m 16 with h | h
  · interval_cases m <;> decide
  · have h16 : Nat.digitChar m = '*' := by
      unfold Nat.digitChar
      iterate 16 rw [if_neg (by omega)]
    rw [h16]
    decide

lemma toDigitsCore_no_dot (fuel : Nat) :
    ∀ (n : Nat) (ds : List Char), '.' ∉ ds →
      '.' ∉ Nat.toDigitsCore 10 fuel n ds := by
  induction fuel with
  | zero => intro n ds h; simpa [Nat.toDigitsCore] using h
  | succ f ih =>
    intro n ds h
    simp only [Nat.toDigitsCore]
    have hd : '.' ∉ Nat.digitChar (n % 10) :: ds := by
      intro hm
      rcases List.mem_cons.mp hm with hm | hm
      · exact digitChar_ne_dot (n % 10) hm.symm
      · exact h hm
    split
    · exact hd
    · exact ih (n / 10) (Nat.digitChar (n % 10) :: ds) hd

lemma natRepr_no_dot (n : Nat) : '.' ∉ (Nat.repr n).data :=
  toDigitsCore_no_dot (n + 1) n [] (by simp)

lemma intRepr_no_dot (i : Int) : '.' ∉ (Int.repr i).data := by
  cases i with
  | ofNat m => exact natRepr_no_dot m
  | negSucc m =>
    show '.' ∉ (("-" : String) ++ Nat.repr (m + 1)).data
    rw [String.data_append]
    intro hm
    rcases List.mem_append.mp hm with hm | hm
    · simp at hm
    · exact natRepr_no_dot (m + 1) hm

/-- `common/build.go` `ProjectSlug`: fail if `url.Parse` failed or the URL
has an empty host; otherwise take the URL path, trim a `.git` suffix,
`filepath.Clean` it, and fail if the result is `"."` or still contains
`".."`; else return it. -/
def ProjectSlug (parseResult : Except GoError URL) (clean : String → String) :
    Except GoError String :=
  match parseResult with
  | Except.error e => Except.error e
  | Except.ok u =>
    if u.host = "" then Except.error "only URI reference supported"
    else
      let slug := clean (trimSuffix u.path ".git")
      if slug = "." then Except.error "invalid path"
      else if hasDotDot slug then Except.error "it doesn't look like a valid path"
      else Except.ok slug

/-- `common/build.go` `ProjectUniqueDir`: the slug, or on any `ProjectSlug`
error the fallback `"project-<ProjectID>"`; for shared dirs the result is
additionally joined (by `filepath.Join`, modelled as the oracle `join`)
under the runner short-description and the concurrency index. -/
def ProjectUniqueDir (sharedDir : Bool) (parseResult : Except GoError URL)
    (clean : String → String) (join : List String → String) (b : Build) : String :=
  let dir :=
    match ProjectSlug parseResult clean with
    | Except.error _ => "project-" ++ Int.repr b.projectID
    | Except.ok slug => slug
  if sharedDir then
    join [b.runner.shortDescription, Int.repr b.projectRunnerID, dir]
  else dir

lemma projectSlug_ok_no_dotdot (parseResult : Except GoError URL)
    (clean : String → String) (s : String)
    (h : ProjectSlug parseResult clean = Except.ok s) : hasDotDot s = false := by
  rcases parseResult with e | u
  · simp [ProjectSlug] at h
  · by_cases h1 : u.host = ""
    · simp [ProjectSlug, h1] at h
    · by_cases h2 : clean (trimSuffix u.path ".git") = "."
      · simp [ProjectSlug, h1, h2] at h
      · by_cases h3 : hasDotDot (clean (trimSuffix u.path ".git")) = true
        · simp [ProjectSlug, h1, h2, h3] at h
        · have heq : ProjectSlug (Except.ok u) clean =
              Except.ok (clean (trimSuffix u.path ".git")) := by
            simp [ProjectSlug, h1, h2, h3]
          rw [heq] at h
          injection h with h'
          subst h'
          simpa using h3

lemma fallback_no_dotdot (pid : Int) :
    hasDotDot ("project-" ++ Int.repr pid) = false := by
  apply hasDotDotChars_eq_false
  show '.' ∉ (("project-" : String) ++ Int.repr pid).data
  rw [String.data_append]
  intro hm
  rcases List.mem_append.mp hm with hm | hm
  · simp at hm
  · exact intRepr_no_dot pid hm

end Common

namespace Commands

/-! ### `commands/multi.go` — `processRunner` / `processRunners`

`processRunner` is modelled as a pure function from the results the
environment returns at each call site (`buildsHelper.acquire`,
`network.GetBuild`, `build.Run`) to the ordered list of observable calls it
makes and its returned error.  Go `defer`s run in LIFO order at return, so
the deferred `removeBuild`, `trace.Fail`, `buildsHelper.release` and
`runner.Release` appear at the end of the event list in that order.  A
deferred call's arguments are evaluated when the `defer` statement itself
executes: at `defer trace.Fail(err)` the named return `err` has not been
assigned yet and is still `nil`, so the deferred call is always
`trace.Fail(nil)` — regardless of what `build.Run` later returns. -/

/-- Results the environment hands to one `processRunner` call:
whether `buildsHelper.acquire` grants capacity, what `network.GetBuild`
returns (`none` = no build) together with its health flag, and the error
`build.Run` would produce (`none` = success). -/
structure RunnerEnv where
  acquireOk : Bool
  buildData : Option Nat
  healthy : Bool
  runErr : Option GoError
deriving DecidableEq, Repr

/-- Observable calls made by `processRunner` and the worker loop. -/
inductive Event
  | buildsAcquire (ok : Bool)
  | buildsRelease
  | slotRelease
  | getBuild
  | makeHealthy (ok : Bool)
  | processBuild (id : Nat)
  | addBuild
  | removeBuild
  | runBuild (err : Option GoError)
  | traceFail (err : Option GoError)
  | gc
deriving DecidableEq, Repr

/-- `commands/multi.go` `processRunner`: `defer runner.Release()`; return if
`buildsHelper.acquire` refuses; `defer buildsHelper.release`; `GetBuild` and
`makeHealthy`; return if no build; open the trace (`ProcessBuild`) and
`defer trace.Fail(err)` — Go evaluates the deferred call's argument at the
`defer` statement, where the named return `err` is still `nil`, so the
trace is always closed with `Fail(nil)`; `addBuild` / `defer removeBuild`;
run the build and return its error. -/
def processRunner (env : RunnerEnv) : List Event × Option GoError :=
  if env.acquireOk = false then
    ([Event.buildsAcquire false, Event.slotRelease], none)
  else
    match env.buildData with
    | none =>
      ([Event.buildsAcquire true, Event.getBuild, Event.makeHealthy env.healthy,
        Event.buildsRelease, Event.slotRelease], none)
    | some id =>
      ([Event.buildsAcquire true, Event.getBuild, Event.makeHealthy env.healthy,
        Event.processBuild id, Event.addBuild, Event.runBuild env.runErr,
        Event.removeBuild, Event.traceFail none,
        Event.buildsRelease, Event.slotRelease], env.runErr)

/-- One step of the worker's `select` in `processRunners`: either a slot is
received from the `runners` channel (with the environment its job will see)
or `stopWorker` fires. -/
inductive WorkerMsg
  | slot (env : RunnerEnv)
  | stopWorker
deriving Repr

/-- `commands/multi.go` `processRunners`: the worker loop.  Each consumed
slot is processed by `processRunner` (its returned error is discarded)
followed by a forced GC cycle; on `stopWorker` the worker returns. -/
def processRunners : List WorkerMsg → List Event
  | [] => []
  | WorkerMsg.slot env :: rest =>
    (processRunner env).1 ++ [Event.gc] ++ processRunners rest
  | WorkerMsg.stopWorker :: _ => []

/-- Number of slots the worker consumes from a message sequence before its
first `stopWorker`. -/
def slotsConsumed : List WorkerMsg → Nat
  | [] => 0
  | WorkerMsg.slot _ :: rest => 1 + slotsConsumed rest
  | WorkerMsg.stopWorker :: _ => 0

/-! ### `commands/multi.go` — `feedRunner` -/

/-- The executor provider as seen by `feedRunner`: its advertised
`CanCreate()` answer and the result of `Acquire` (`ExecutorData` token or
error). -/
structure ProviderEnv where
  canCreate : Bool
  acquireResult : Except GoError Nat
deriving Repr

/-- Results the environment hands to one `feedRunner` call: the
`isHealthy` answer for this runner and the provider `GetExecutor` resolves
(`none` when no executor of that kind is registered). -/
structure FeedEnv where
  healthy : Bool
  provider : Option ProviderEnv
deriving Repr

/-- Observable calls made by `feedRunner`. -/
inductive FeedEvent
  | acquireCall
  | warnLog
  | slotSent (data : Nat)
deriving DecidableEq, Repr

/-- `commands/multi.go` `feedRunner`: return if unhealthy; resolve the
provider with `GetExecutor` and return if `nil`; call `provider.Acquire`
and on error log a warning and return; otherwise send the acquired slot on
the `runners` channel. -/
def feedRunner (env : FeedEnv) : List FeedEvent :=
  if env.healthy = false then []
  else
    match env.provider with
    | none => []
    | some p =>
      match p.acquireResult with
      | Except.error _ => [FeedEvent.acquireCall, FeedEvent.warnLog]
      | Except.ok d => [FeedEvent.acquireCall, FeedEvent.slotSent d]

/-! ### `commands/multi.go` — `checkConfig` -/

/-- The loaded configuration: its stored `ModTime` (modelled as `Nat`
ticks) and an abstract payload identifying the parsed contents. -/
structure Config where
  modTime : Nat
  payload : Nat
deriving DecidableEq, Repr

/-- Result of `os.Stat(mr.ConfigFile)`: the file's mtime. -/
structure FileInfo where
  modTime : Nat
deriving DecidableEq, Repr

/-- Modelled from the spec: `configOptions.loadConfig` is not under `src/`.
Per the spec's reload semantics it parses the file into a fresh structure;
on parse failure the prior config is retained and an error returned; on
success the active config is replaced by the freshly parsed one, whose
stored mtime is the file's mtime.  `parseResult` is the parse outcome
(`none` = parse failure, `some p` = fresh payload). -/
def loadConfig (cfg : Config) (parseResult : Option Nat) (fileModTime : Nat) :
    Config × Option GoError :=
  match parseResult with
  | none => (cfg, some "parse error")
  | some p => (⟨fileModTime, p⟩, none)

/-- `commands/multi.go` `checkConfig`: stat the config file (propagating a
stat error); if the file mtime is not strictly after the stored
`Config.ModTime`, do nothing; otherwise `loadConfig`, and on failure keep
the prior config but set its stored `ModTime` to the file's mtime.  Returns
the new state, the returned error, and whether a reload was attempted. -/
def checkConfig (cfg : Config) (statResult : Except GoError FileInfo)
    (parseResult : Option Nat) : Config × Option GoError × Bool :=
  match statResult with
  | Except.error e => (cfg, some e, false)
  | Except.ok info =>
    if ¬ (cfg.modTime < info.modTime) then (cfg, none, false)
    else
      match loadConfig cfg parseResult info.modTime with
      | (cfg2, none) => (cfg2, none, true)
      | (cfg2, some e) => (⟨info.modTime, cfg2.payload⟩, some e, true)

/-! ### `commands/multi.go` — `handleShutdown` -/

/-- The first of the three `select` alternatives in `handleShutdown` to
fire: another stop signal (with its display name), the `ShutdownTimeout`
timer, or `runFinished`. -/
inductive ShutdownEvent
  | stopSignalReceived (sig : String)
  | timeoutFired
  | runFinished
deriving Repr

/-- Actions `handleShutdown` performs before waiting. -/
inductive ShutdownAction
  | warnLog
  | startAbortPump
deriving DecidableEq, Repr

/-- `commands/multi.go` `handleShutdown`: log a warning, start the
`abortAllBuilds` pump goroutine, then wait: a further stop signal returns
the error `"forced exit: <signal>"`, the `ShutdownTimeout` timer returns
the error `"shutdown timedout"`, and `runFinished` returns `nil`. -/
def handleShutdown (firstEvent : ShutdownEvent) :
    List ShutdownAction × Option GoError :=
  ([ShutdownAction.warnLog, ShutdownAction.startAbortPump],
    match firstEvent with
    | ShutdownEvent.stopSignalReceived sig => some ("forced exit: " ++ sig)
    | ShutdownEvent.timeoutFired => some "shutdown timedout"
    | ShutdownEvent.runFinished => none)

lemma processRunner_count_slotRelease (env : RunnerEnv) :
    (processRunner env).1.count Event.slotRelease = 1 := by
  rcases env with ⟨aok, bd, h, re⟩
  rcases aok <;> rcases bd <;> simp [processRunner, List.count_cons]

/-- A healthy runner whose provider answers `CanCreate() == false` but whose
`Acquire` succeeds with token `7`. -/
def feedEnvNoCanCreate : FeedEnv :=
  ⟨true, some ⟨false, Except.ok 7⟩⟩

end Commands

namespace Helpers

/-! ### `commands/helpers/archive.go` — `isChanged` and `Execute`

The file collection (`processPaths` / `processUntracked`) and the stat of
the archive file are environment inputs; `Execute` is modelled as the
decision it reaches after collection: fatal exit, "Archive is up to date!"
short-circuit, listing, or archiving.  Modification times are `Nat` ticks
(Go `time.Time.Before` is strict `<`). -/

/-- One entry of `c.files`: its path and `FileInfo.ModTime()`. -/
structure FileEntry where
  path : String
  modTime : Nat
deriving DecidableEq, Repr

/-- `archive.go` `isChanged`: true iff some collected file's mtime is
strictly after `modTime`. -/
def isChanged (files : List FileEntry) (modTime : Nat) : Bool :=
  files.any (fun info => modTime < info.modTime)

/-- Result of `os.Stat(c.File)`: a real stat error (`os.IsNotExist` false),
file absent, or present with its mtime. -/
inductive StatResult
  | statError
  | notExist
  | found (modTime : Nat)
deriving DecidableEq, Repr

/-- The decision `ArchiveCommand.Execute` reaches. -/
inductive Outcome
  | fatalWd
  | fatalMissingFileName
  | fatalStat
  | upToDate
  | listedFiles
  | archived
deriving DecidableEq, Repr

/-- Environment of one `ArchiveCommand.Execute` call: the flag fields, the
`os.Getwd` result, the `--file` argument, the collected file set, and the
result of `os.Stat(c.File)`. -/
structure ArchiveEnv where
  verbose : Bool
  list : Bool
  noProgress : Bool
  wdResult : Except GoError String
  file : String
  files : List FileEntry
  statResult : StatResult
deriving Repr

/-- `archive.go` `ArchiveCommand.Execute`: `Verbose` clears `List`; fatal if
`Getwd` fails or the file name is missing while not listing; after
collecting files, stat the archive; fatal on a real stat error; if the
archive exists and `isChanged` is false, report "Archive is up to date!"
and return; otherwise list (with `--list`) or build the archive. -/
def Execute (env : ArchiveEnv) : Outcome :=
  let listFlag := if env.verbose then false else env.list
  match env.wdResult with
  | Except.error _ => Outcome.fatalWd
  | Except.ok _ =>
    if env.file = "" && !listFlag then Outcome.fatalMissingFileName
    else
      match env.statResult with
      | StatResult.statError => Outcome.fatalStat
      | StatResult.found m =>
        if isChanged env.files m = false then Outcome.upToDate
        else if listFlag then Outcome.listedFiles else Outcome.archived
      | StatResult.notExist =>
        if listFlag then Outcome.listedFiles else Outcome.archived

end Helpers

namespace Shells

/-! ### `shells/abstract.go` — `GenerateCommands`

The `ShellWriter` is modelled as an event list; a build enters through the
fields `GenerateCommands` reads.  Go `strings.TrimSpace` is modelled by
`String.trim` (both trim Unicode whitespace from both ends; on the ASCII
whitespace appearing in shell scripts they agree) and `strings.Split` by
`String.splitOn` (identical semantics for a non-empty separator). -/

/-- Calls `GenerateCommands` makes on its `ShellWriter`. -/
inductive ShellEvent
  | exportVar (key value : String)
  | cd (path : String)
  | notice (msg : String)
  | emptyLine
  | line (text : String)
  | checkForErrors
deriving DecidableEq, Repr

/-- The fields of `common.Build` that `GenerateCommands` reads. -/
structure ShellBuild where
  buildVariables : List (String × String)
  fullProjectDir : String
  commands : String
deriving DecidableEq, Repr

/-- `abstract.go` `writeExports`: one `Variable` call per build variable. -/
def writeExports (b : ShellBuild) : List ShellEvent :=
  b.buildVariables.map (fun v => ShellEvent.exportVar v.1 v.2)

/-- The events emitted for one line of the split command string: a notice
`"$ <command>"` for a non-empty trimmed line or an empty output line for an
empty one, then the (trimmed) command line itself, then `CheckForErrors`. -/
def commandBlock (raw : String) : List ShellEvent :=
  (if raw.trim ≠ "" then [ShellEvent.notice ("$ " ++ raw.trim)]
   else [ShellEvent.emptyLine]) ++
  [ShellEvent.line raw.trim, ShellEvent.checkForErrors]

/-- `abstract.go` `GenerateCommands`: write the exports, cd into the build
dir, then for each newline-separated line of the whitespace-trimmed
`build.Commands` emit its `commandBlock`. -/
def GenerateCommands (b : ShellBuild) : List ShellEvent :=
  writeExports b ++ [ShellEvent.cd b.fullProjectDir] ++
    (b.commands.trim.splitOn "\n").flatMap commandBlock

/-- Every `line` event is immediately followed by a `checkForErrors`. -/
def LineChecked (evs : List ShellEvent) : Prop :=
  ∀ i l, evs.get? i = some (ShellEvent.line l) →
    evs.get? (i + 1) = some ShellEvent.checkForErrors

lemma lineChecked_nil : LineChecked [] := by
  intro i l h
  simp at h

lemma lineChecked_cons_of_ne (ev : ShellEvent) (evs : List ShellEvent)
    (hev : ∀ l, ev ≠ ShellEvent.line l) (h : LineChecked evs) :
    LineChecked (ev :: evs) := by
  intro i l hi
  cases i with
  | zero =>
    simp only [List.get?] at hi
    exact absurd (by injection hi) (hev l)
  | succ j =>
    simp only [List.get?] at hi ⊢
    exact h j l hi

lemma lineChecked_line_check (c : String) (evs : List ShellEvent)
    (h : LineChecked (ShellEvent.checkForErrors :: evs)) :
    LineChecked (ShellEvent.line c :: ShellEvent.checkForErrors :: evs) := by
  intro i l hi
  cases i with
  | zero => rfl
  | succ j =>
    simp only [List.get?] at hi ⊢
    exact h j l hi

lemma lineChecked_commandBlock (raw : String) (evs : List ShellEvent)
    (h : LineChecked evs) : LineChecked (commandBlock raw ++ evs) := by
  have hcheck : LineChecked (ShellEvent.checkForErrors :: evs) :=
    lineChecked_cons_of_ne _ _ (fun l hl => by injection hl) h
  have hline : LineChecked
      (ShellEvent.line raw.trim :: ShellEvent.checkForErrors :: evs) :=
    lineChecked_line_check _ _ hcheck
  unfold commandBlock
  by_cases hr : raw.trim ≠ ""
  · rw [if_pos hr]
    exact lineChecked_cons_of_ne _ _ (fun l hl => by injection hl) hline
  · rw [if_neg hr]
    exact lineChecked_cons_of_ne _ _ (fun l hl => by injection hl) hline

lemma lineChecked_flatMap (raws : List String) :
    LineChecked (raws.flatMap commandBlock) := by
  induction raws with
  | nil => exact lineChecked_nil
  | cons raw rest ih =>
    rw [List.flatMap_cons]
    exact lineChecked_commandBlock raw _ ih

lemma lineChecked_append_of_no_line (pre evs : List ShellEvent)
    (hpre : ∀ l, ShellEvent.line l ∉ pre) (h : LineChecked evs) :
    LineChecked (pre ++ evs) := by
  induction pre with
  | nil => simpa using h
  | cons ev rest ih =>
    have hev : ∀ l, ev ≠ ShellEvent.line l := by
      intro l hl
      exact hpre l (by simp [hl])
    have hrest : ∀ l, ShellEvent.line l ∉ rest := by
      intro l hl
      exact hpre l (List.mem_cons_of_mem _ hl)
    rw [List.cons_append]
    exact lineChecked_cons_of_ne _ _ hev (ih hrest)

lemma count_check_commandBlock (raw : String) :
    (commandBlock raw).count ShellEvent.checkForErrors = 1 := by
  unfold commandBlock
  by_cases h : raw.trim ≠ "" <;>
    simp [h, List.count_cons, List.count_append]

lemma count_check_flatMap (raws : List String) :
    (raws.flatMap commandBlock).count ShellEvent.checkForErrors = raws.length := by
  induction raws with
  | nil => rfl
  | cons raw rest ih =>
    rw [List.flatMap_cons, List.count_append, ih, count_check_commandBlock]
    simp [Nat.add_comm]

lemma count_check_writeExports (b : ShellBuild) :
    (writeExports b).count ShellEvent.checkForErrors = 0 := by
  rw [List.count_eq_zero]
  intro hm
  obtain ⟨v, _, hv⟩ := List.mem_map.mp hm
  exact ShellEvent.noConfusion hv

lemma no_line_in_prelude (b : ShellBuild) (l : String) :
    ShellEvent.line l ∉ writeExports b ++ [ShellEvent.cd b.fullProjectDir] := by
  intro hm
  rcases List.mem_append.mp hm with hm | hm
  · obtain ⟨v, _, hv⟩ := List.mem_map.mp hm
    exact ShellEvent.noConfusion hv
  · rcases List.mem_singleton.mp hm with h
    exact ShellEvent.noConfusion h

lemma line_mem_commandBlock (raw : String) (l : String)
    (h : ShellEvent.line l ∈ commandBlock raw) : l = raw.trim := by
  unfold commandBlock at h
  by_cases hr : raw.trim ≠ ""
  · rw [if_pos hr] at h
    rcases List.mem_cons.mp h with h | h
    · exact ShellEvent.noConfusion h
    rcases List.mem_cons.mp h with h | h
    · injection h
    rcases List.mem_singleton.mp h with h
    exact ShellEvent.noConfusion h
  · rw [if_neg hr] at h
    rcases List.mem_cons.mp h with h | h
    · exact ShellEvent.noConfusion h
    rcases List.mem_cons.mp h with h | h
    · injection h
    rcases List.mem_singleton.mp h with h
    exact ShellEvent.noConfusion h

end Shells

namespace Common

/-- C2: `AssignID` sets `GlobalID`, `RunnerID` and `ProjectRunnerID` each to
the smallest non-negative integer not already used in its scope; the scopes
are, independently: all other builds; other builds with the same runner
short-description; other builds with the same runner short-description and
the same `ProjectID`. -/
theorem c2_assignID_least_fresh (b : Build) (others : List Build) :
    IsLeastFresh (fun v => ∃ o ∈ others, o.globalID = v)
      (AssignID b others).globalID ∧
    IsLeastFresh (fun v => ∃ o ∈ others,
        o.runner.shortDescription = b.runner.shortDescription ∧ o.runnerID = v)
      (AssignID b others).runnerID ∧
    IsLeastFresh (fun v => ∃ o ∈ others,
        o.runner.shortDescription = b.runner.shortDescription ∧
        o.projectID = b.projectID ∧ o.projectRunnerID = v)
      (AssignID b others).projectRunnerID := by
  refine ⟨?_, ?_, ?_⟩
  · have h := isLeastFresh_firstFree (others.map (fun o => o.globalID))
    obtain ⟨h0, hfree, hmin⟩ := h
    refine ⟨h0, ?_, ?_⟩
    · intro hmem
      exact hfree (by
        obtain ⟨o, ho, hv⟩ := hmem
        exact List.mem_map.mpr ⟨o, ho, hv⟩)
    · intro w hw0 hww
      have := hmin w hw0 hww
      obtain ⟨o, ho, hv⟩ := List.mem_map.mp this
      exact ⟨o, ho, hv⟩
  · have h := isLeastFresh_firstFree ((others.filter
      (fun o => o.runner.shortDescription == b.runner.shortDescription)).map
        (fun o => o.runnerID))
    obtain ⟨h0, hfree, hmin⟩ := h
    refine ⟨h0, ?_, ?_⟩
    · intro hmem
      refine hfree ?_
      obtain ⟨o, ho, hsd, hv⟩ := hmem
      exact List.mem_map.mpr ⟨o, List.mem_filter.mpr ⟨ho, by simpa using hsd⟩, hv⟩
    · intro w hw0 hww
      have := hmin w hw0 hww
      obtain ⟨o, ho, hv⟩ := List.mem_map.mp this
      obtain ⟨ho1, ho2⟩ := List.mem_filter.mp ho
      exact ⟨o, ho1, by simpa using ho2, hv⟩
  · have h := isLeastFresh_firstFree ((others.filter
      (fun o => o.runner.shortDescription == b.runner.shortDescription &&
        o.projectID == b.projectID)).map
        (fun o => o.projectRunnerID))
    obtain ⟨h0, hfree, hmin⟩ := h
    refine ⟨h0, ?_, ?_⟩
    · intro hmem
      refine hfree ?_
      obtain ⟨o, ho, hsd, hpid, hv⟩ := hmem
      refine List.mem_map.mpr ⟨o, List.mem_filter.mpr ⟨ho, ?_⟩, hv⟩
      simp [hsd, hpid]
    · intro w hw0 hww
      have := hmin w hw0 hww
      obtain ⟨o, ho, hv⟩ := List.mem_map.mp this
      obtain ⟨ho1, ho2⟩ := List.mem_filter.mp ho
      have ho2' := ho2
      simp only [Bool.and_eq_true, beq_iff_eq] at ho2'
      exact ⟨o, ho1, ho2'.1, ho2'.2, hv⟩

/-- C4: whenever an executor is found, `Build.Run` calls `Start` iff
`Prepare` succeeded and `Wait` iff both `Prepare` and `Start` succeeded;
it always ends with `Finish(err)` followed by `Cleanup`, each exactly once,
where `err` is the first error produced by `Prepare`/`Start`/`Wait` (`none`
if all succeeded); and `Run` returns that same error. -/
theorem c4_run_executor_protocol (env : ExecEnv) (h : env.found = true) :
    (ExecEvent.start ∈ (Run env).1 ↔ env.prepareErr = none) ∧
    (ExecEvent.wait ∈ (Run env).1 ↔
      env.prepareErr = none ∧ env.startErr = none) ∧
    (∃ pre, (Run env).1 =
      pre ++ [ExecEvent.finish (firstErr env), ExecEvent.cleanup] ∧
      ∀ e, ExecEvent.finish e ∉ pre ∧ ExecEvent.cleanup ∉ pre) ∧
    ((Run env).1.count (ExecEvent.finish (firstErr env)) = 1) ∧
    (∀ e, ExecEvent.finish e ∈ (Run env).1 → e = firstErr env) ∧
    ((Run env).1.count ExecEvent.cleanup = 1) ∧
    (Run env).2 = firstErr env := by
  rcases env with ⟨found, pe, se, we⟩
  subst h
  refine ⟨?_, ?_, ⟨[ExecEvent.prepare]
      ++ (if pe = none then [ExecEvent.start] else [])
      ++ (if (if pe = none then se else pe) = none then [ExecEvent.wait] else []),
      ?_, ?_⟩, ?_, ?_, ?_, ?_⟩ <;>
    rcases pe with _ | e1 <;> rcases se with _ | e2 <;> rcases we with _ | e3 <;>
      simp [Run, firstErr, List.count_append, List.count_cons]

/-- Witness for C4 at the concrete environment where the executor is found
and `Prepare` fails: `Start` is never called. -/
theorem c4_run_executor_protocol_witness :
    ExecEvent.start ∉ (Run ⟨true, some "prepare failed", none, none⟩).1 := by
  have h := c4_run_executor_protocol ⟨true, some "prepare failed", none, none⟩ rfl
  intro hmem
  exact Option.some_ne_none _ (h.1.mp hmem)

end Common

namespace Commands

/-- C1: on every exit path of `processRunner` — capacity refused, no build,
job failed, or job succeeded — `runner.Release()` is called exactly once;
over a whole worker run, the number of `Release` calls equals the number of
slots consumed, and a worker cancelled before consuming a slot consumes
nothing (so no consumed slot is ever left unreleased). -/
theorem c1_slot_released_exactly_once :
    (∀ env : RunnerEnv,
      (processRunner env).1.count Event.slotRelease = 1) ∧
    (∀ msgs : List WorkerMsg,
      (processRunners msgs).count Event.slotRelease = slotsConsumed msgs) ∧
    (∀ msgs : List WorkerMsg,
      processRunners (WorkerMsg.stopWorker :: msgs) = []) := by
  refine ⟨processRunner_count_slotRelease, ?_, fun msgs => rfl⟩
  intro msgs
  induction msgs with
  | nil => rfl
  | cons msg rest ih =>
    cases msg with
    | slot env =>
      simp only [processRunners, slotsConsumed, List.count_append,
        processRunner_count_slotRelease, ih]
      simp [List.count_cons]
    | stopWorker => rfl

/-- C3 counterexample: a healthy runner whose provider answers
`CanCreate() == false` is not skipped — `feedRunner` still calls `Acquire`
and sends the slot, because the source never consults `CanCreate`. -/
theorem c3_counterexample :
    (∃ p, feedEnvNoCanCreate.provider = some p ∧ p.canCreate = false) ∧
    FeedEvent.acquireCall ∈ feedRunner feedEnvNoCanCreate ∧
    FeedEvent.slotSent 7 ∈ feedRunner feedEnvNoCanCreate := by
  refine ⟨⟨⟨false, Except.ok 7⟩, rfl, rfl⟩, ?_, ?_⟩ <;>
    simp [feedRunner, feedEnvNoCanCreate]

/-- C3 (amended): the feeder performs no `CanCreate` check.  For every
healthy runner whose executor provider resolves, `feedRunner` calls
`Acquire` regardless of the provider's `CanCreate` answer, and it sends a
slot if and only if `Acquire` succeeds. -/
theorem c3_feed_runner_amended (env : FeedEnv) (p : ProviderEnv)
    (hh : env.healthy = true) (hp : env.provider = some p) :
    FeedEvent.acquireCall ∈ feedRunner env ∧
    (∀ d, FeedEvent.slotSent d ∈ feedRunner env ↔
      p.acquireResult = Except.ok d) := by
  rcases env with ⟨h, pr⟩
  simp only at hh hp
  subst hh
  subst hp
  rcases hpa : p.acquireResult with e | d0 <;>
    simp [feedRunner, hpa, eq_comm]

/-- Witness for C3 (amended) at a concrete healthy environment whose
provider's `Acquire` succeeds. -/
theorem c3_feed_runner_amended_witness :
    FeedEvent.acquireCall ∈ feedRunner ⟨true, some ⟨true, Except.ok 3⟩⟩ :=
  (c3_feed_runner_amended ⟨true, some ⟨true, Except.ok 3⟩⟩ ⟨true, Except.ok 3⟩
    rfl rfl).1

/-- C5: the code violates the claim.  `defer trace.Fail(err)` at
`multi.go:117` evaluates its argument when the `defer` statement executes,
while the named return `err` is still `nil`; only
`defer func() { trace.Fail(err) }()` would read `err` at return.  At a
failing build the trace is therefore closed with `Fail(nil)` — exactly
once, but never with the job's error — although `processRunner` itself
returns that error. -/
theorem c5_trace_fail_nil_bug :
    (processRunner ⟨true, some 0, true, some "job failed"⟩).1.count
      (Event.traceFail none) = 1 ∧
    Event.traceFail (some "job failed") ∉
      (processRunner ⟨true, some 0, true, some "job failed"⟩).1 ∧
    (processRunner ⟨true, some 0, true, some "job failed"⟩).2 =
      some "job failed" := by
  refine ⟨?_, ?_, rfl⟩ <;> simp [processRunner, List.count_cons]

/-- C6: `checkConfig` attempts a reload iff the file mtime is strictly
after the stored `Config.ModTime`; when the reload fails the prior config
payload is retained but the stored mtime becomes the file's mtime, an error
is returned, and a repeated `checkConfig` on the unchanged file attempts no
reload. -/
theorem c6_check_config_reload (cfg : Config) (info : FileInfo)
    (parseResult : Option Nat) :
    ((checkConfig cfg (Except.ok info) parseResult).2.2 = true ↔
      cfg.modTime < info.modTime) ∧
    (cfg.modTime < info.modTime → parseResult = none →
      ((checkConfig cfg (Except.ok info) parseResult).1.payload = cfg.payload ∧
       (checkConfig cfg (Except.ok info) parseResult).1.modTime = info.modTime ∧
       (checkConfig cfg (Except.ok info) parseResult).2.1 ≠ none ∧
       ∀ parseResult2 : Option Nat,
         (checkConfig (checkConfig cfg (Except.ok info) parseResult).1
           (Except.ok info) parseResult2).2.2 = false)) := by
  by_cases hlt : cfg.modTime < info.modTime
  · constructor
    · rcases parseResult with _ | p <;> simp [checkConfig, loadConfig, hlt]
    · intro _ hparse
      subst hparse
      refine ⟨by simp [checkConfig, loadConfig, hlt], by simp [checkConfig, loadConfig, hlt],
        by simp [checkConfig, loadConfig, hlt], ?_⟩
      intro parseResult2
      simp [checkConfig, loadConfig, hlt]
  · constructor
    · simp [checkConfig, hlt]
    · intro h
      exact absurd h hlt

/-- Witness for C6: a strictly newer file whose parse fails. -/
theorem c6_check_config_reload_witness :
    (checkConfig ⟨0, 5⟩ (Except.ok ⟨1⟩) none).1.payload = 5 ∧
    (checkConfig ⟨0, 5⟩ (Except.ok ⟨1⟩) none).1.modTime = 1 ∧
    (checkConfig (checkConfig ⟨0, 5⟩ (Except.ok ⟨1⟩) none).1
      (Except.ok ⟨1⟩) (some 9)).2.2 = false := by
  have h := (c6_check_config_reload ⟨0, 5⟩ ⟨1⟩ none).2 (by decide) rfl
  exact ⟨h.1, h.2.1, h.2.2.2 (some 9)⟩

/-- C7 counterexample: the timeout branch of `handleShutdown` returns the
error message `"shutdown timedout"`, not `"shutdown timed out"` as the
claim words it. -/
theorem c7_counterexample :
    (handleShutdown ShutdownEvent.timeoutFired).2 = some "shutdown timedout" ∧
    (handleShutdown ShutdownEvent.timeoutFired).2 ≠ some "shutdown timed out" := by
  exact ⟨rfl, by decide⟩

/-- C7 (amended): after the abort pump is started, `handleShutdown` returns
`nil` exactly when `runFinished` is received first, returns the error
`"forced exit: <signal>"` (so prefixed by `"forced exit"` and naming the
new signal) when another stop signal arrives first, and returns a
`"shutdown timedout"` error when the `ShutdownTimeout` deadline fires
first. -/
theorem c7_forced_shutdown_amended :
    (∀ ev, ShutdownAction.startAbortPump ∈ (handleShutdown ev).1) ∧
    (∀ ev, (handleShutdown ev).2 = none ↔ ev = ShutdownEvent.runFinished) ∧
    (∀ sig, (handleShutdown (ShutdownEvent.stopSignalReceived sig)).2 =
      some ("forced exit: " ++ sig)) ∧
    (∀ sig, ∃ rest, "forced exit: " ++ sig = "forced exit" ++ rest) ∧
    (handleShutdown ShutdownEvent.timeoutFired).2 = some "shutdown timedout" := by
  refine ⟨fun ev => by simp [handleShutdown], fun ev => ?_, fun sig => rfl,
    fun sig => ⟨": " ++ sig, ?_⟩, rfl⟩
  · cases ev <;> simp [handleShutdown]
  · have h : ("forced exit: " : String) = "forced exit" ++ ": " := rfl
    rw [h, String.append_assoc]

end Commands

namespace Common

/-- C8: `ProjectUniqueDir(false)` never contains `".."`, for every
behaviour of `url.Parse` and `filepath.Clean`: `ProjectSlug` errors when
the URL fails to parse, has an empty host, cleans to `"."`, or still
contains `".."`, and on any error `ProjectUniqueDir` falls back to
`"project-<ProjectID>"`. -/
theorem c8_project_dir_never_dotdot (parseResult : Except GoError URL)
    (clean : String → String) (join : List String → String) (b : Build) :
    hasDotDot (ProjectUniqueDir false parseResult clean join b) = false ∧
    (∀ e, parseResult = Except.error e →
      ProjectSlug parseResult clean = Except.error e) ∧
    (∀ u, parseResult = Except.ok u → u.host = "" →
      ∃ e, ProjectSlug parseResult clean = Except.error e) ∧
    (∀ u, parseResult = Except.ok u →
      clean (trimSuffix u.path ".git") = "." →
      ∃ e, ProjectSlug parseResult clean = Except.error e) ∧
    (∀ u, parseResult = Except.ok u →
      hasDotDot (clean (trimSuffix u.path ".git")) = true →
      ∃ e, ProjectSlug parseResult clean = Except.error e) ∧
    (∀ e, ProjectSlug parseResult clean = Except.error e →
      ProjectUniqueDir false parseResult clean join b =
        "project-" ++ Int.repr b.projectID) := by
  refine ⟨?_, ?_, ?_, ?_, ?_, ?_⟩
  · rcases hps : ProjectSlug parseResult clean with e | slug
    · simp only [ProjectUniqueDir, hps]
      exact fallback_no_dotdot b.projectID
    · simp only [ProjectUniqueDir, hps]
      simpa using projectSlug_ok_no_dotdot parseResult clean slug hps
  · intro e he
    subst he
    rfl
  · intro u hu hhost
    subst hu
    exact ⟨"only URI reference supported", by simp [ProjectSlug, hhost]⟩
  · intro u hu hdot
    subst hu
    by_cases hh : u.host = ""
    · exact ⟨"only URI reference supported", by simp [ProjectSlug, hh]⟩
    · exact ⟨"invalid path", by simp [ProjectSlug, hh, hdot]⟩
  · intro u hu hdd
    subst hu
    by_cases hh : u.host = ""
    · exact ⟨"only URI reference supported", by simp [ProjectSlug, hh]⟩
    · by_cases hd : clean (trimSuffix u.path ".git") = "."
      · exact ⟨"invalid path", by simp [ProjectSlug, hh, hd]⟩
      · exact ⟨"it doesn't look like a valid path",
          by simp [ProjectSlug, hh, hd, hdd]⟩
  · intro e he
    simp [ProjectUniqueDir, he]

/-- Witness for C8 at a concrete failed parse: the fallback directory name
is used and contains no `".."`. -/
theorem c8_project_dir_never_dotdot_witness :
    hasDotDot (ProjectUniqueDir false (Except.error "parse failed") id
      (String.intercalate "/") ⟨⟨"0123456789abcdef"⟩, 42, 0, 0, 0⟩) = false ∧
    ProjectUniqueDir false (Except.error "parse failed") id
      (String.intercalate "/") ⟨⟨"0123456789abcdef"⟩, 42, 0, 0, 0⟩ =
      "project-42" := by
  have h := c8_project_dir_never_dotdot (Except.error "parse failed") id
    (String.intercalate "/") ⟨⟨"0123456789abcdef"⟩, 42, 0, 0, 0⟩
  refine ⟨h.1, (h.2.2.2.2.2 "parse failed" rfl).trans ?_⟩
  rfl

end Common

namespace Helpers

/-- C9: when the target archive file exists, `Execute` neither lists nor
rebuilds the archive iff no collected file's mtime is strictly after the
archive's mtime (`isChanged` false); in that case it takes the
"Archive is up to date!" return. -/
theorem c9_archive_up_to_date (env : ArchiveEnv) (m : Nat) (w : String)
    (hstat : env.statResult = StatResult.found m)
    (hwd : env.wdResult = Except.ok w) (hfile : env.file ≠ "") :
    ((Execute env ≠ Outcome.listedFiles ∧ Execute env ≠ Outcome.archived) ↔
      isChanged env.files m = false) ∧
    (isChanged env.files m = false → Execute env = Outcome.upToDate) := by
  rcases env with ⟨v, li, np, wd, f, fs, st⟩
  simp only at hstat hwd hfile
  subst hstat
  subst hwd
  by_cases hch : isChanged fs m = false <;>
    rcases v <;> rcases li <;>
      simp [Execute, hfile, hch]

/-- Witness for C9 at a concrete environment where the archive is newer
than every collected file. -/
theorem c9_archive_up_to_date_witness :
    Execute ⟨false, false, false, Except.ok "w", "archive.zip",
      [⟨"a", 5⟩], StatResult.found 10⟩ = Outcome.upToDate := by
  have h := c9_archive_up_to_date ⟨false, false, false, Except.ok "w",
    "archive.zip", [⟨"a", 5⟩], StatResult.found 10⟩ 10 "w" rfl rfl (by decide)
  exact h.2 (by decide)

end Helpers

namespace Shells

/-- C10: `GenerateCommands` splits the whitespace-trimmed `build.Commands`
on newlines and emits, per line: a `"$ <command>"` notice for a non-empty
trimmed line or an empty output line for an empty one, then the command
line, then one `CheckForErrors` — so the number of error checks equals the
number of lines, every emitted command line comes from a split line, and
every `line` event is immediately followed by a `checkForErrors`. -/
theorem c10_generate_commands_structure (b : ShellBuild) :
    GenerateCommands b = writeExports b ++ [ShellEvent.cd b.fullProjectDir] ++
      (b.commands.trim.splitOn "\n").flatMap (fun raw =>
        (if raw.trim ≠ "" then [ShellEvent.notice ("$ " ++ raw.trim)]
         else [ShellEvent.emptyLine]) ++
        [ShellEvent.line raw.trim, ShellEvent.checkForErrors]) ∧
    ((GenerateCommands b).count ShellEvent.checkForErrors =
      (b.commands.trim.splitOn "\n").length) ∧
    (∀ l, ShellEvent.line l ∈ GenerateCommands b →
      ∃ raw ∈ b.commands.trim.splitOn "\n", l = raw.trim) ∧
    LineChecked (GenerateCommands b) := by
  refine ⟨rfl, ?_, ?_, ?_⟩
  · simp only [GenerateCommands, List.count_append, count_check_flatMap,
      count_check_writeExports, List.count_cons, List.count_nil]
    simp
  · intro l hl
    simp only [GenerateCommands, List.append_assoc, List.mem_append] at hl
    rcases hl with hl | hl
    · exact absurd hl (fun hm =>
        no_line_in_prelude b l (List.mem_append.mpr (Or.inl hm)))
    rcases hl with hl | hl
    · exact absurd hl (fun hm =>
        no_line_in_prelude b l (List.mem_append.mpr (Or.inr hm)))
    · obtain ⟨raw, hraw, hmem⟩ := List.mem_flatMap.mp hl
      exact ⟨raw, hraw, line_mem_commandBlock raw l hmem⟩
  · exact lineChecked_append_of_no_line _ _ (no_line_in_prelude b)
      (lineChecked_flatMap _)

/-- Witness for C10 on a concrete one-command build: every emitted command
line is immediately followed by an error check. -/
theorem c10_generate_commands_structure_witness :
    LineChecked (GenerateCommands ⟨[], "dir", "echo hi"⟩) :=
  (c10_generate_commands_structure ⟨[], "dir", "echo hi"⟩).2.2.2

end Shells
